import Mathlib

/-!
Shallow embedding of the BDL IR builder (`src/bdl-ts/src/ir-builder.ts`).

The repository source under verification is `ir-builder.ts`.  Its
collaborators (`ast.ts`, `ir.ts`, `ast-utils.ts`, the parser) are not part
of the provided sources, so their small surface is modelled from the spec:

* spans are modelled as the token strings they denote, so the
  `span text s` helper of `ast-utils.ts` returns `s` itself;
* `pathItemsToString` likewise: a module path in an import declaration is
  modelled as the already-joined path string;
* `getAttributeContent` reads the attribute content verbatim, so an AST
  attribute carries its content string directly;
* the parser is an external collaborator and is a parameter
  `parseBdl : String → Except ε BdlAst` of the build entry point, exactly
  as the module-resolution capability is a parameter.

`Record<string, T>` values are modelled as association lists together with
a JavaScript-object assignment `recordSet` (existing key keeps its slot and
gets the new value; new key is appended) and lookup `recordLookup`.

The possibly non-terminating `while (queue.length)` loop of `gather` is
embedded with explicit fuel; fuel exhaustion is `none`, a completed run is
`some (ok files)` or `some (error e)`.
-/

set_option autoImplicit false

namespace Bdl

/-- Modelled from the spec: a source-position span; since the only use of a
span in the IR builder is to extract the spanned token text, a span is
modelled as that token string. -/
abbrev Span := String

/-- Modelled from the spec: `ast-utils.ts` `span(text, span)` extracts the
token text at a span; under the span model it returns the span itself. -/
def span (_text : String) (s : Span) : String := s

/-- Modelled from the spec: an AST attribute node (`ast.ts` is not in the
provided sources); it carries its identifier span and its content, which
`getAttributeContent` extracts verbatim. -/
structure AstAttribute where
  id : Span
  content : String
deriving DecidableEq, Repr

/-- Modelled from the spec: `ast-utils.ts` `getAttributeContent` extracts
the attribute content verbatim from source text. -/
def getAttributeContent (_text : String) (attr : AstAttribute) : String :=
  attr.content

/-- Modelled from the spec: the alias node of an import item (`X as Y`). -/
structure ImportAlias where
  name : Span
deriving DecidableEq, Repr

/-- Modelled from the spec: one item of an import declaration; `aliasOf`
models the `alias` field of the AST node (`alias` is a Lean keyword). -/
structure ImportItemAst where
  name : Span
  aliasOf : Option ImportAlias
deriving DecidableEq, Repr

/-- Modelled from the spec: an import declaration; the dotted module path is
modelled as the joined string (see `pathItemsToString`). -/
structure ImportAst where
  attributes : List AstAttribute
  path : String
  items : List ImportItemAst
deriving DecidableEq, Repr

/-- Modelled from the spec: `ast-utils.ts` `pathItemsToString` joins the
path items of an import declaration; under the path model it returns the
path itself. -/
def pathItemsToString (_text : String) (path : String) : String := path

/-- Modelled from the spec: the optional container modifier of a type
expression, with an optional key type (`T[]` vs `T[K]`). -/
structure ContainerExpr where
  keyType : Option Span
deriving DecidableEq, Repr

/-- Modelled from the spec: a syntactic type expression: a value-type name
plus an optional container modifier. -/
structure TypeExpression where
  valueType : Span
  container : Option ContainerExpr
deriving DecidableEq, Repr

/-- Modelled from the spec: an enum item node. -/
structure EnumItemAst where
  attributes : List AstAttribute
  name : Span
deriving DecidableEq, Repr

/-- Modelled from the spec: the error clause of an rpc item. -/
structure RpcError where
  errorType : TypeExpression
deriving DecidableEq, Repr

/-- Modelled from the spec: an rpc item node. -/
structure RpcItemAst where
  attributes : List AstAttribute
  name : Span
  inputType : TypeExpression
  outputType : TypeExpression
  error : Option RpcError
deriving DecidableEq, Repr

/-- Modelled from the spec: a socket item node with sender and receiver
role spans and a message type. -/
structure SocketItemAst where
  attributes : List AstAttribute
  sender : Span
  receiver : Span
  messageType : TypeExpression
deriving DecidableEq, Repr

/-- Modelled from the spec: a struct field node; `question` is the optional
trailing question-mark span marking the field optional. -/
structure StructFieldAst where
  attributes : List AstAttribute
  name : Span
  itemType : TypeExpression
  question : Option Span
deriving DecidableEq, Repr

/-- Modelled from the spec: the embedded struct-like member list of a union
item. -/
structure UnionStructAst where
  fields : List StructFieldAst
deriving DecidableEq, Repr

/-- Modelled from the spec: a union item node. -/
structure UnionItemAst where
  attributes : List AstAttribute
  name : Span
  struct : Option UnionStructAst
deriving DecidableEq, Repr

/-- Modelled from the spec: `ast.ModuleLevelStatement`, the seven statement
kinds; every kind except the import pseudo-statement carries a `name` span. -/
inductive ModuleLevelStatement where
  | Enum (attributes : List AstAttribute) (name : Span) (items : List EnumItemAst)
  | Import (imp : ImportAst)
  | Rpc (attributes : List AstAttribute) (name : Span) (items : List RpcItemAst)
  | Scalar (attributes : List AstAttribute) (name : Span) (scalarType : TypeExpression)
  | Socket (attributes : List AstAttribute) (name : Span) (items : List SocketItemAst)
  | Struct (attributes : List AstAttribute) (name : Span) (fields : List StructFieldAst)
  | Union (attributes : List AstAttribute) (name : Span) (items : List UnionItemAst)
deriving DecidableEq, Repr

/-- Modelled from the spec: `ast.BdlAst`, a module's syntax tree: module
attributes plus the ordered statement list. -/
structure BdlAst where
  attributes : List AstAttribute
  statements : List ModuleLevelStatement
deriving DecidableEq, Repr

/-- Embeds `ast-utils.ts` `isImport`. -/
def isImport : ModuleLevelStatement → Bool
  | .Import _ => true
  | _ => false

/-- Embeds the `"name" in s` type-guard filter of `buildBdlIr`: every
statement kind except the import pseudo-statement has a `name` field. -/
def hasName : ModuleLevelStatement → Bool
  | .Import _ => false
  | _ => true

/-- Embeds reading `statement.name` on a statement that passed the
`"name" in s` filter. -/
def stmtName : ModuleLevelStatement → Option Span
  | .Import _ => none
  | .Enum _ name _ => some name
  | .Rpc _ name _ => some name
  | .Scalar _ name _ => some name
  | .Socket _ name _ => some name
  | .Struct _ name _ => some name
  | .Union _ name _ => some name

/-!  IR data model, following `ir.ts` as used by `ir-builder.ts`. -/

/-- Embeds `ir.Attribute`. -/
structure Attribute where
  id : String
  content : String
deriving DecidableEq, Repr

/-- Embeds `ir.Type`: the closed Plain / Array / Dictionary variant. -/
inductive IrType where
  | Plain (valueTypePath : String)
  | Array (valueTypePath : String)
  | Dictionary (valueTypePath : String) (keyTypePath : String)
deriving DecidableEq, Repr

/-- Embeds `ir.ImportItem`. -/
structure ImportItem where
  name : String
  as : Option String
deriving DecidableEq, Repr

/-- Embeds `ir.Import`. -/
structure Import where
  attributes : List Attribute
  modulePath : String
  items : List ImportItem
deriving DecidableEq, Repr

/-- Embeds `ir.EnumItem`. -/
structure EnumItem where
  attributes : List Attribute
  name : String
deriving DecidableEq, Repr

/-- Embeds `ir.RpcItem`. -/
structure RpcItem where
  attributes : List Attribute
  name : String
  inputType : IrType
  outputType : IrType
  errorType : Option IrType
deriving DecidableEq, Repr

/-- Embeds `ir.SocketItem`. -/
structure SocketItem where
  attributes : List Attribute
  messageType : IrType
deriving DecidableEq, Repr

/-- Embeds `ir.StructField`. -/
structure StructField where
  attributes : List Attribute
  name : String
  itemType : IrType
  optional : Bool
deriving DecidableEq, Repr

/-- Embeds `ir.UnionItem`. -/
structure UnionItem where
  attributes : List Attribute
  name : String
  fields : List StructField
deriving DecidableEq, Repr

/-- Embeds `ir.Enum` (without the discriminant tag, which becomes the
`DefBody.Enum` constructor). -/
structure Enum where
  items : List EnumItem
deriving DecidableEq, Repr

/-- Embeds `ir.Rpc`. -/
structure Rpc where
  items : List RpcItem
deriving DecidableEq, Repr

/-- Embeds `ir.Scalar`. -/
structure Scalar where
  scalarType : IrType
deriving DecidableEq, Repr

/-- Embeds `ir.Socket`: both directional channels are optional, because
`Array.prototype.find` can return `undefined` despite the non-null
assertions in `buildSocket`. -/
structure Socket where
  serverToClient : Option SocketItem
  clientToServer : Option SocketItem
deriving DecidableEq, Repr

/-- Embeds `ir.Struct`. -/
structure Struct where
  fields : List StructField
deriving DecidableEq, Repr

/-- Embeds `ir.Union`. -/
structure Union where
  items : List UnionItem
deriving DecidableEq, Repr

/-- Embeds `ir.DefBody`: the closed variant over the six definition kinds;
the TypeScript discriminant `type` string becomes the constructor. -/
inductive DefBody where
  | Enum (e : Enum)
  | Rpc (r : Rpc)
  | Scalar (s : Scalar)
  | Socket (s : Socket)
  | Struct (s : Struct)
  | Union (u : Union)
deriving DecidableEq, Repr

/-- Embeds `ir.Def`. -/
structure Def where
  attributes : List Attribute
  name : String
  body : DefBody
deriving DecidableEq, Repr

/-- Embeds `ir.Module`. -/
structure Module where
  fileUrl : Option String
  attributes : List Attribute
  defPaths : List String
  imports : List Import
deriving DecidableEq, Repr

/-!  Record maps: JavaScript plain objects used as string-keyed maps. -/

/-- Embeds the key list of a record map (`Object.keys`). -/
def recordKeys {α : Type} (record : List (String × α)) : List String :=
  record.map Prod.fst

/-- Embeds assignment `record[k] = v` on a JavaScript object used as a map:
an existing key keeps its slot and receives the new value, a fresh key is
appended at the end. -/
def recordSet {α : Type} (record : List (String × α)) (k : String) (v : α) :
    List (String × α) :=
  if k ∈ recordKeys record then
    record.map (fun p => if p.1 = k then (k, v) else p)
  else record ++ [(k, v)]

/-- Embeds reading `record[k]` on a JavaScript object used as a map. -/
def recordLookup {α : Type} (record : List (String × α)) (k : String) : Option α :=
  match record with
  | [] => none
  | (k', v) :: rest => if k' = k then some v else recordLookup rest k

/-- Embeds `ir.BdlIr`: the two global mappings of the program IR. -/
structure BdlIr where
  modules : List (String × Module)
  defs : List (String × Def)
deriving DecidableEq, Repr

/-!  Builders, translated one-for-one from `ir-builder.ts`. -/

/-- Embeds `buildAttribute`. -/
def buildAttribute (text : String) (attr : AstAttribute) : Attribute :=
  { id := span text attr.id
    content := getAttributeContent text attr }

/-- Embeds `buildAttributes`. -/
def buildAttributes (text : String) (attributes : List AstAttribute) :
    List Attribute :=
  attributes.map (buildAttribute text)

/-- Embeds `buildType`: no container modifier gives Plain, a modifier
without a key type gives Array, a modifier with a key type gives
Dictionary with both names resolved through `typeNameToPath`. -/
def buildType (text : String) (type : TypeExpression)
    (typeNameToPath : String → String) : IrType :=
  let valueTypePath := typeNameToPath (span text type.valueType)
  match type.container with
  | none => .Plain valueTypePath
  | some container =>
    match container.keyType with
    | none => .Array valueTypePath
    | some keyType => .Dictionary valueTypePath (typeNameToPath (span text keyType))

/-- Embeds `buildImport`. -/
def buildImport (text : String) (importNode : ImportAst) : Import :=
  { attributes := buildAttributes text importNode.attributes
    modulePath := pathItemsToString text importNode.path
    items := importNode.items.map (fun item =>
      { name := span text item.name
        as := item.aliasOf.map (fun al => span text al.name) }) }

/-- Embeds `buildEnum`. -/
def buildEnum (text : String) (items : List EnumItemAst) : Enum :=
  { items := items.map (fun item =>
      { attributes := buildAttributes text item.attributes
        name := span text item.name }) }

/-- Embeds `buildRpc`. -/
def buildRpc (text : String) (items : List RpcItemAst)
    (typeNameToPath : String → String) : Rpc :=
  { items := items.map (fun item =>
      { attributes := buildAttributes text item.attributes
        name := span text item.name
        inputType := buildType text item.inputType typeNameToPath
        outputType := buildType text item.outputType typeNameToPath
        errorType := item.error.map (fun e =>
          buildType text e.errorType typeNameToPath) }) }

/-- Embeds `buildScalar`. -/
def buildScalar (text : String) (scalarType : TypeExpression)
    (typeNameToPath : String → String) : Scalar :=
  { scalarType := buildType text scalarType typeNameToPath }

/-- Embeds `buildSocketItem`. -/
def buildSocketItem (text : String) (item : SocketItemAst)
    (typeNameToPath : String → String) : SocketItem :=
  { attributes := buildAttributes text item.attributes
    messageType := buildType text item.messageType typeNameToPath }

/-- Embeds the predicate of the first `find` in `buildSocket`: the item's
sender role is the label server and its receiver role the label client. -/
def isServerToClientItem (text : String) (item : SocketItemAst) : Bool :=
  span text item.sender == "server" && span text item.receiver == "client"

/-- Embeds the predicate of the second `find` in `buildSocket`. -/
def isClientToServerItem (text : String) (item : SocketItemAst) : Bool :=
  span text item.sender == "client" && span text item.receiver == "server"

/-- Embeds `buildSocket`: each directional channel is the first declared
item whose sender and receiver spans carry the matching role labels. -/
def buildSocket (text : String) (items : List SocketItemAst)
    (typeNameToPath : String → String) : Socket :=
  let serverToClient := items.find? (isServerToClientItem text)
  let clientToServer := items.find? (isClientToServerItem text)
  { serverToClient := serverToClient.map (fun i => buildSocketItem text i typeNameToPath)
    clientToServer := clientToServer.map (fun i => buildSocketItem text i typeNameToPath) }

/-- Embeds `buildStructField`; `optional` is `Boolean(field.question)`. -/
def buildStructField (text : String) (field : StructFieldAst)
    (typeNameToPath : String → String) : StructField :=
  { attributes := buildAttributes text field.attributes
    name := span text field.name
    itemType := buildType text field.itemType typeNameToPath
    optional := field.question.isSome }

/-- Embeds `buildStruct`. -/
def buildStruct (text : String) (fields : List StructFieldAst)
    (typeNameToPath : String → String) : Struct :=
  { fields := fields.map (fun field => buildStructField text field typeNameToPath) }

/-- Embeds `buildUnion`; a union item without an embedded struct gets an
empty field list. -/
def buildUnion (text : String) (items : List UnionItemAst)
    (typeNameToPath : String → String) : Union :=
  { items := items.map (fun item =>
      { attributes := buildAttributes text item.attributes
        name := span text item.name
        fields := (item.struct.map (fun s =>
          s.fields.map (fun field => buildStructField text field typeNameToPath))).getD [] }) }

/-- Embeds `buildDef` together with the `buildDefBodyFns` dispatch table:
the import pseudo-statement has no builder and yields no definition; every
other kind dispatches to its body builder. -/
def buildDef (text : String) (statement : ModuleLevelStatement)
    (typeNameToPath : String → String) : Option Def :=
  match statement with
  | .Import _ => none
  | .Enum attributes name items =>
    some { attributes := buildAttributes text attributes
           name := span text name
           body := .Enum (buildEnum text items) }
  | .Rpc attributes name items =>
    some { attributes := buildAttributes text attributes
           name := span text name
           body := .Rpc (buildRpc text items typeNameToPath) }
  | .Scalar attributes name scalarType =>
    some { attributes := buildAttributes text attributes
           name := span text name
           body := .Scalar (buildScalar text scalarType typeNameToPath) }
  | .Socket attributes name items =>
    some { attributes := buildAttributes text attributes
           name := span text name
           body := .Socket (buildSocket text items typeNameToPath) }
  | .Struct attributes name fields =>
    some { attributes := buildAttributes text attributes
           name := span text name
           body := .Struct (buildStruct text fields typeNameToPath) }
  | .Union attributes name items =>
    some { attributes := buildAttributes text attributes
           name := span text name
           body := .Union (buildUnion text items typeNameToPath) }

/-!  Per-module symbol resolution, translated from the `buildBdlIr` body. -/

/-- Embeds the `defStatements` local of `buildBdlIr`: the statements that
pass the `"name" in s` filter. -/
def defStatements (a : BdlAst) : List ModuleLevelStatement :=
  a.statements.filter hasName

/-- Embeds the `localDefNames` local of `buildBdlIr`: the names of the
definitions declared directly in the module (membership model of the
TypeScript `Set`). -/
def localDefNames (text : String) (a : BdlAst) : List String :=
  (defStatements a).filterMap (fun statement =>
    (stmtName statement).map (span text))

/-- Embeds the `imports` local of `buildBdlIr`:
`ast.statements.filter(isImport).map(buildImport)`. -/
def moduleImportList (text : String) (a : BdlAst) : List Import :=
  (a.statements.filter isImport).filterMap (fun statement =>
    match statement with
    | .Import importNode => some (buildImport text importNode)
    | _ => none)

/-- Embeds the `importedNames` accumulation loop of `buildBdlIr`: for
each import item, in declaration order, assign one record entry — under
the alias when present, under the declared name otherwise — mapping to
`<importedModulePath>.<declaredName>`. -/
def importedNames (imports : List Import) : List (String × String) :=
  imports.foldl (fun acc importStatement =>
    importStatement.items.foldl (fun acc importItem =>
      let typePath := importStatement.modulePath ++ "." ++ importItem.name
      match importItem.as with
      | some a => recordSet acc a typePath
      | none => recordSet acc importItem.name typePath) acc) []

/-- Embeds the `typeNameToPath` closure of `buildBdlIr`: local definition
names first, then the imported-name record, then the name unchanged. -/
def typeNameToPath (modulePath : String) (localNames : List String)
    (imported : List (String × String)) (typeName : String) : String :=
  if typeName ∈ localNames then modulePath ++ "." ++ typeName
  else
    match recordLookup imported typeName with
    | some path => path
    | none => typeName

/-- Embeds the symbol resolver a module gets inside `buildBdlIr`, with the
three inputs computed from the module's syntax tree. -/
def moduleTypeNameToPath (modulePath text : String) (a : BdlAst) :
    String → String :=
  typeNameToPath modulePath (localDefNames text a)
    (importedNames (moduleImportList text a))

/-- Embeds the `for (const statement of defStatements)` loop of
`buildBdlIr`: it threads the growing `defPaths` list and the global `defs`
record; a statement that yields no definition is skipped. -/
def buildDefsFold (text modulePath : String) (typeNameToPath : String → String)
    (statements : List ModuleLevelStatement)
    (defPaths : List String) (defs : List (String × Def)) :
    List String × List (String × Def) :=
  statements.foldl (fun acc statement =>
    match buildDef text statement typeNameToPath with
    | none => acc
    | some d =>
      let defPath := modulePath ++ "." ++ d.name
      (acc.1 ++ [defPath], recordSet acc.2 defPath d)) (defPaths, defs)

/-- Embeds one parsed module record as produced by `gather`. -/
structure ModuleFile where
  fileUrl : Option String
  text : String
  modulePath : String
  ast : BdlAst
deriving DecidableEq, Repr

/-- Embeds `BuildBdlIrResult`: the syntax-tree record plus the assembled IR. -/
structure BuildBdlIrResult where
  asts : List (String × BdlAst)
  ir : BdlIr
deriving DecidableEq, Repr

/-- Embeds one iteration of the `for await (const moduleFile of gather(...))`
loop in `buildBdlIr`: store the syntax tree, build the symbol resolver,
build every definition, and store the finished module record. -/
def buildModule (acc : BuildBdlIrResult) (moduleFile : ModuleFile) :
    BuildBdlIrResult :=
  let text := moduleFile.text
  let a := moduleFile.ast
  let modulePath := moduleFile.modulePath
  let attributes := buildAttributes text a.attributes
  let imports := moduleImportList text a
  let resolver := moduleTypeNameToPath modulePath text a
  let folded := buildDefsFold text modulePath resolver (defStatements a) [] acc.ir.defs
  let m : Module :=
    { fileUrl := moduleFile.fileUrl
      attributes := attributes
      defPaths := folded.1
      imports := imports }
  { asts := recordSet acc.asts modulePath a
    ir := { modules := recordSet acc.ir.modules modulePath m
            defs := folded.2 } }

/-!  Module graph traversal (`gather`) and the build entry point. -/

/-- Embeds `ResolveModuleFileResult`. -/
structure ResolveModuleFileResult where
  fileUrl : Option String
  text : String
deriving DecidableEq, Repr

/-- Modelled from the spec: `ast-utils.ts` `getImportPaths` extracts the
module paths referenced by the import declarations of a syntax tree. -/
def getImportPaths (text : String) (a : BdlAst) : List String :=
  (a.statements.filter isImport).filterMap (fun statement =>
    match statement with
    | .Import importNode => some (pathItemsToString text importNode.path)
    | _ => none)

variable {ε : Type}

/-- Embeds the `gather` generator as the list of module records it yields,
in yield order.  The `while (queue.length)` loop pops from the end of the
queue (`queue.pop()`), skips already-visited paths, fetches and parses the
module, and pushes its import paths.  The loop has no termination
guarantee on its own (an infinite module graph loops forever), so the
embedding takes explicit fuel: `none` means the fuel ran out, `some` is a
completed run.  A failure of the resolution capability or of the parser is
propagated as `Except.error`. -/
def gather (resolveModuleFile : String → Except ε ResolveModuleFileResult)
    (parseBdl : String → Except ε BdlAst) :
    Nat → List String → List String → Option (Except ε (List ModuleFile))
  | _, [], _ => some (.ok [])
  | 0, _ :: _, _ => none
  | fuel + 1, q :: qs, visited =>
    let modulePath := (q :: qs).getLast (List.cons_ne_nil q qs)
    let rest := (q :: qs).dropLast
    if modulePath ∈ visited then
      gather resolveModuleFile parseBdl fuel rest visited
    else
      match resolveModuleFile modulePath with
      | .error e => some (.error e)
      | .ok r =>
        match parseBdl r.text with
        | .error e => some (.error e)
        | .ok a =>
          match gather resolveModuleFile parseBdl fuel
              (rest ++ getImportPaths r.text a) (modulePath :: visited) with
          | none => none
          | some (.error e) => some (.error e)
          | some (.ok files) =>
            some (.ok ({ fileUrl := r.fileUrl, text := r.text
                         modulePath := modulePath, ast := a } :: files))

/-- Embeds `buildBdlIr`: drive `gather` from the entry module paths and
fold every yielded module record into the accumulating result.  Any
resolution or parse failure is propagated unchanged; `none` is fuel
exhaustion of the embedded traversal. -/
def buildBdlIr (entryModulePaths : List String)
    (resolveModuleFile : String → Except ε ResolveModuleFileResult)
    (parseBdl : String → Except ε BdlAst) (fuel : Nat) :
    Option (Except ε BuildBdlIrResult) :=
  match gather resolveModuleFile parseBdl fuel entryModulePaths [] with
  | none => none
  | some (.error e) => some (.error e)
  | some (.ok moduleFiles) =>
    some (.ok (moduleFiles.foldl buildModule
      { asts := [], ir := { modules := [], defs := [] } }))

/-!  Derived notions used to state the claims about the traversal. -/

/-- Derives the import edges of the module graph: the import paths of the
module a path resolves and parses to, or no edges when fetching or parsing
fails. -/
def moduleImportsFn {ε : Type}
    (resolveModuleFile : String → Except ε ResolveModuleFileResult)
    (parseBdl : String → Except ε BdlAst) (p : String) : List String :=
  match resolveModuleFile p with
  | .error _ => []
  | .ok r =>
    match parseBdl r.text with
    | .error _ => []
    | .ok a => getImportPaths r.text a

/-- Reachability from a seed set `S` by import hops that never enter the
set `V` of already-visited paths. -/
inductive ReachAvoid (imp : String → List String) (V S : List String) :
    String → Prop
  | base {p : String} : p ∈ S → p ∉ V → ReachAvoid imp V S p
  | step {p q : String} : ReachAvoid imp V S p → q ∈ imp p → q ∉ V →
      ReachAvoid imp V S q

/-- Reachability by zero or more import hops from the entry paths. -/
def Reachable (imp : String → List String) (entries : List String)
    (p : String) : Prop :=
  ReachAvoid imp [] entries p

/-- States that the sole fallible collaborators fail at a path: the
resolution capability fails outright, or it succeeds and the parser fails
on the returned source text. -/
def resolveOrParseFails {ε : Type}
    (resolveModuleFile : String → Except ε ResolveModuleFileResult)
    (parseBdl : String → Except ε BdlAst) (p : String) : Prop :=
  (∃ e, resolveModuleFile p = .error e) ∨
  (∃ r e, resolveModuleFile p = .ok r ∧ parseBdl r.text = .error e)

/-!  Specification-side definitions for the imported-name map claim.
They follow the spec text, not the source, and exist to be compared with
`importedNames`. -/

/-- Describes, following the amended claim, the single binding an import
item contributes: the alias when present, otherwise the declared name,
mapped to the path of the declared name inside the imported module. -/
def itemBinding (modulePath : String) (item : ImportItem) : String × String :=
  (match item.as with
   | some a => a
   | none => item.name,
   modulePath ++ "." ++ item.name)

/-- Describes the flat, declaration-ordered list of bindings contributed by
a module's import declarations. -/
def importBindings (imports : List Import) : List (String × String) :=
  (imports.map (fun importStatement =>
    importStatement.items.map (itemBinding importStatement.modulePath))).flatten

/-- Describes last-wins lookup in a flat binding list: the value of the
last binding that carries the key. -/
def lookupLast (bindings : List (String × String)) (k : String) : Option String :=
  recordLookup bindings.reverse k

/-- Helper for the binding-list lemmas: fold a flat binding list into a
record map by repeated assignment. -/
def applyBindings (acc : List (String × String))
    (bindings : List (String × String)) : List (String × String) :=
  bindings.foldl (fun acc b => recordSet acc b.1 b.2) acc

/-!  Concrete fixtures used by the witness theorems. -/

/-- Fixture: the empty syntax tree. -/
def emptyAst : BdlAst := { attributes := [], statements := [] }

/-- Fixture: a resolution capability that succeeds on every path with the
path itself as source text and no file URL. -/
def resolveSelfText (p : String) : Except String ResolveModuleFileResult :=
  .ok { fileUrl := none, text := p }

/-- Fixture: pointwise equal variant of `resolveSelfText` with a different
body, for the determinism witness. -/
def resolveSelfTextV2 (p : String) : Except String ResolveModuleFileResult :=
  .ok { fileUrl := none, text := id p }

/-- Fixture: a resolution capability that fails on every path. -/
def resolveFailAll (_p : String) : Except String ResolveModuleFileResult :=
  .error "unresolvable"

/-- Fixture: a parser that returns the empty syntax tree for any text. -/
def parseEmptyAst (_t : String) : Except String BdlAst := .ok emptyAst

/-- Fixture: the module records yielded when building the single entry
module with `resolveSelfText` and `parseEmptyAst`. -/
def filesA : List ModuleFile :=
  [{ fileUrl := none, text := "a", modulePath := "a", ast := emptyAst }]

/-- Fixture: the build result for the single entry module. -/
def resA : BuildBdlIrResult :=
  { asts := [("a", emptyAst)]
    ir := { modules := [("a", { fileUrl := none, attributes := [],
                                defPaths := [], imports := [] })]
            defs := [] } }

/-- Fixture: a syntax tree declaring a local struct S and importing S and T
from module other, for the resolution-precedence witness. -/
def astLocalAndImport : BdlAst :=
  { attributes := []
    statements :=
      [ .Struct [] "S" []
      , .Import { attributes := [], path := "other",
                  items := [ { name := "S", aliasOf := none }
                           , { name := "T", aliasOf := none } ] } ] }

/-- Fixture: a single import declaration bringing X from module b under the
alias Y. -/
def importsAliasOnly : List Import :=
  [{ attributes := [], modulePath := "b",
     items := [{ name := "X", as := some "Y" }] }]

/-- Fixture: a socket item sent by the server to the client. -/
def s2cItem : SocketItemAst :=
  { attributes := [], sender := "server", receiver := "client",
    messageType := { valueType := "Down", container := none } }

/-- Fixture: a socket item sent by the client to the server. -/
def c2sItem : SocketItemAst :=
  { attributes := [], sender := "client", receiver := "server",
    messageType := { valueType := "Up", container := none } }

/-- Fixture: a syntax tree declaring one struct S with one int field. -/
def astStructS : BdlAst :=
  { attributes := []
    statements :=
      [ .Struct [] "S" [{ attributes := [], name := "x",
                          itemType := { valueType := "int", container := none },
                          question := none }] ] }

/-- Fixture: a parser that returns `astStructS` for any text. -/
def parseStructS (_t : String) : Except String BdlAst := .ok astStructS

/-- Fixture: the build result for the single entry module parsed as
`astStructS`. -/
def resStructS : BuildBdlIrResult :=
  { asts := [("a", astStructS)]
    ir := { modules := [("a", { fileUrl := none, attributes := [],
                                defPaths := ["a.S"], imports := [] })]
            defs := [("a.S",
              { attributes := [], name := "S",
                body := .Struct { fields := [{ attributes := [], name := "x",
                                               itemType := .Plain "int",
                                               optional := false }] } })] } }

/-- Fixture: the module stored for the single entry module parsed as
`astStructS`. -/
def moduleStructS : Module :=
  { fileUrl := none, attributes := [], defPaths := ["a.S"], imports := [] }

/-- Fixture: the empty build accumulator. -/
def emptyBuildResult : BuildBdlIrResult :=
  { asts := [], ir := { modules := [], defs := [] } }

/-- Fixture: an enum statement named E. -/
def dupStmtEnum : ModuleLevelStatement := .Enum [] "E" []

/-- Fixture: a struct statement also named E. -/
def dupStmtStruct : ModuleLevelStatement := .Struct [] "E" []

/-- Fixture: a module file whose tree declares the name E twice, first as
an enum and then as a struct. -/
def mfDup : ModuleFile :=
  { fileUrl := none, text := "", modulePath := "a",
    ast := { attributes := [], statements := [dupStmtEnum, dupStmtStruct] } }

/-- Fixture: the definition the struct statement named E builds. -/
def defStructE : Def :=
  { attributes := [], name := "E", body := .Struct { fields := [] } }

/-- Fixture: the module record built from `mfDup`, with the shared
definition path listed twice. -/
def moduleDup : Module :=
  { fileUrl := none, attributes := [], defPaths := ["a.E", "a.E"], imports := [] }

/-!  Lemmas about the record-map model. -/

section RecordLemmas

variable {α : Type}

theorem recordLookup_append (m₁ m₂ : List (String × α)) (k : String) :
    recordLookup (m₁ ++ m₂) k =
      match recordLookup m₁ k with
      | some v => some v
      | none => recordLookup m₂ k := by
  induction m₁ with
  | nil => simp [recordLookup]
  | cons p rest ih =>
    obtain ⟨k', v⟩ := p
    by_cases h : k' = k <;> simp [recordLookup, h, ih]

theorem recordLookup_eq_none_of_not_mem (m : List (String × α)) (k : String)
    (h : k ∉ recordKeys m) : recordLookup m k = none := by
  induction m with
  | nil => rfl
  | cons p rest ih =>
    obtain ⟨k', v⟩ := p
    simp only [recordKeys, List.map_cons, List.mem_cons, not_or] at h
    simp [recordLookup, Ne.symm h.1, ih (by simpa [recordKeys] using h.2)]

theorem recordLookup_map_set_self (m : List (String × α)) (k : String) (v : α)
    (h : k ∈ recordKeys m) :
    recordLookup (m.map (fun p => if p.1 = k then (k, v) else p)) k = some v := by
  induction m with
  | nil => simp [recordKeys] at h
  | cons p rest ih =>
    obtain ⟨k', v'⟩ := p
    rw [List.map_cons]
    by_cases hk : k' = k
    · have hhead : (if ((k', v') : String × α).1 = k then (k, v) else (k', v')) =
          (k, v) := by simp [hk]
      rw [hhead]
      simp [recordLookup]
    · have hhead : (if ((k', v') : String × α).1 = k then (k, v) else (k', v')) =
          (k', v') := by simp [hk]
      rw [hhead]
      have hmem : k ∈ recordKeys rest := by
        simp only [recordKeys, List.map_cons, List.mem_cons] at h
        rcases h with h | h
        · exact absurd h.symm hk
        · exact h
      simp [recordLookup, hk, ih hmem]

theorem recordLookup_map_set_ne (m : List (String × α)) (k k' : String) (v : α)
    (h : k' ≠ k) :
    recordLookup (m.map (fun p => if p.1 = k then (k, v) else p)) k' =
      recordLookup m k' := by
  induction m with
  | nil => rfl
  | cons p rest ih =>
    obtain ⟨k₁, v₁⟩ := p
    rw [List.map_cons]
    by_cases hk : k₁ = k
    · have hhead : (if ((k₁, v₁) : String × α).1 = k then (k, v) else (k₁, v₁)) =
          (k, v) := by simp [hk]
      rw [hhead]
      have hk₁ : k₁ ≠ k' := by
        rw [hk]
        exact Ne.symm h
      simp [recordLookup, Ne.symm h, hk₁, ih]
    · have hhead : (if ((k₁, v₁) : String × α).1 = k then (k, v) else (k₁, v₁)) =
          (k₁, v₁) := by simp [hk]
      rw [hhead]
      by_cases hk' : k₁ = k'
      · simp [recordLookup, hk']
      · simp [recordLookup, hk', ih]

theorem recordLookup_recordSet (m : List (String × α)) (k k' : String) (v : α) :
    recordLookup (recordSet m k v) k' =
      if k' = k then some v else recordLookup m k' := by
  unfold recordSet
  by_cases hmem : k ∈ recordKeys m
  · rw [if_pos hmem]
    by_cases h : k' = k
    · subst h
      simp [recordLookup_map_set_self m k' v hmem]
    · simp [recordLookup_map_set_ne m k k' v h, h]
  · rw [if_neg hmem]
    rw [recordLookup_append]
    by_cases h : k' = k
    · subst h
      rw [recordLookup_eq_none_of_not_mem m k' hmem]
      simp [recordLookup]
    · simp only [h, if_false]
      cases hl : recordLookup m k' with
      | none => simp [recordLookup, Ne.symm h]
      | some w => simp

theorem recordKeys_recordSet_of_mem (m : List (String × α)) (k : String) (v : α)
    (h : k ∈ recordKeys m) : recordKeys (recordSet m k v) = recordKeys m := by
  unfold recordSet
  rw [if_pos h]
  unfold recordKeys
  rw [List.map_map]
  apply List.map_congr_left
  intro p _
  by_cases hp : p.1 = k <;> simp [hp]

theorem recordKeys_recordSet_of_not_mem (m : List (String × α)) (k : String)
    (v : α) (h : k ∉ recordKeys m) :
    recordKeys (recordSet m k v) = recordKeys m ++ [k] := by
  unfold recordSet
  rw [if_neg h]
  simp [recordKeys]

theorem recordLookup_isSome_iff_mem (m : List (String × α)) (k : String) :
    (recordLookup m k).isSome ↔ k ∈ recordKeys m := by
  induction m with
  | nil => simp [recordLookup, recordKeys]
  | cons p rest ih =>
    obtain ⟨k', v⟩ := p
    by_cases h : k' = k
    · simp only [recordLookup, if_pos h, Option.isSome_some, true_iff]
      simp [recordKeys, h]
    · simp only [recordLookup, if_neg h]
      rw [ih]
      simp only [recordKeys, List.map_cons, List.mem_cons]
      constructor
      · intro hm
        exact Or.inr hm
      · rintro (hm | hm)
        · exact absurd hm.symm h
        · exact hm

theorem recordKeys_nodup_recordSet (m : List (String × α)) (k : String) (v : α)
    (h : (recordKeys m).Nodup) : (recordKeys (recordSet m k v)).Nodup := by
  by_cases hmem : k ∈ recordKeys m
  · rwa [recordKeys_recordSet_of_mem m k v hmem]
  · rw [recordKeys_recordSet_of_not_mem m k v hmem]
    simpa [List.nodup_append] using ⟨h, hmem⟩

end RecordLemmas

/-!  Lemmas about reachability in the import graph. -/

theorem reachAvoid_nil {imp : String → List String} {V : List String}
    {p : String} : ¬ ReachAvoid imp V [] p := by
  intro h
  induction h with
  | base hs _ => exact absurd hs (List.not_mem_nil _)
  | step _ _ _ ih => exact ih

theorem reachAvoid_concat_visited {imp : String → List String}
    {V rest : List String} {m : String} (hm : m ∈ V) {p : String} :
    ReachAvoid imp V (rest ++ [m]) p ↔ ReachAvoid imp V rest p := by
  constructor
  · intro h
    induction h with
    | base hs hv =>
      rcases List.mem_append.mp hs with hs | hs
      · exact ReachAvoid.base hs hv
      · rw [List.mem_singleton] at hs
        subst hs
        exact absurd hm hv
    | step _ he hv ih => exact ReachAvoid.step ih he hv
  · intro h
    induction h with
    | base hs hv => exact ReachAvoid.base (List.mem_append_left _ hs) hv
    | step _ he hv ih => exact ReachAvoid.step ih he hv

theorem reachAvoid_concat_new {imp : String → List String}
    {V rest : List String} {m : String} (hm : m ∉ V) {p : String} :
    ReachAvoid imp V (rest ++ [m]) p ↔
      (p = m ∨ ReachAvoid imp (m :: V) (rest ++ imp m) p) := by
  constructor
  · intro h
    induction h with
    | @base p hs hv =>
      by_cases hpm : p = m
      · exact Or.inl hpm
      · rcases List.mem_append.mp hs with hs | hs
        · refine Or.inr (ReachAvoid.base (List.mem_append_left _ hs) ?_)
          simp [List.mem_cons, hpm, hv]
        · rw [List.mem_singleton] at hs
          exact absurd hs hpm
    | @step x p hx he hv ih =>
      by_cases hpm : p = m
      · exact Or.inl hpm
      · rcases ih with hxm | hra
        · subst hxm
          refine Or.inr (ReachAvoid.base (List.mem_append_right _ he) ?_)
          simp [List.mem_cons, hpm, hv]
        · refine Or.inr (ReachAvoid.step hra he ?_)
          simp [List.mem_cons, hpm, hv]
  · rintro (rfl | h)
    · exact ReachAvoid.base (List.mem_append_right _ (List.mem_singleton_self _)) hm
    · induction h with
      | @base p hs hv =>
        have hv' : p ∉ V := fun hin => hv (List.mem_cons_of_mem _ hin)
        rcases List.mem_append.mp hs with hs | hs
        · exact ReachAvoid.base (List.mem_append_left _ hs) hv'
        · exact ReachAvoid.step
            (ReachAvoid.base (List.mem_append_right _ (List.mem_singleton_self _)) hm)
            hs hv'
      | @step x p hx he hv ih =>
        have hv' : p ∉ V := fun hin => hv (List.mem_cons_of_mem _ hin)
        exact ReachAvoid.step ih he hv'

section GatherSpec

variable {ε : Type}
variable (resolveModuleFile : String → Except ε ResolveModuleFileResult)
variable (parseBdl : String → Except ε BdlAst)

theorem gather_concat (fuel : Nat) (rest : List String) (m : String)
    (visited : List String) :
    gather resolveModuleFile parseBdl (fuel + 1) (rest ++ [m]) visited =
      if m ∈ visited then gather resolveModuleFile parseBdl fuel rest visited
      else
        match resolveModuleFile m with
        | .error e => some (.error e)
        | .ok r =>
          match parseBdl r.text with
          | .error e => some (.error e)
          | .ok a =>
            match gather resolveModuleFile parseBdl fuel
                (rest ++ getImportPaths r.text a) (m :: visited) with
            | none => none
            | some (.error e) => some (.error e)
            | some (.ok files) =>
              some (.ok (({ fileUrl := r.fileUrl, text := r.text,
                            modulePath := m, ast := a } : ModuleFile) :: files)) := by
  cases rest with
  | nil => rfl
  | cons r0 rs =>
    have h1 : (r0 :: (rs ++ [m])).getLast (List.cons_ne_nil r0 (rs ++ [m])) = m := by
      simp [List.getLast_concat]
    have h2 : (r0 :: (rs ++ [m])).dropLast = r0 :: rs := by
      rw [show r0 :: (rs ++ [m]) = (r0 :: rs) ++ [m] by simp]
      exact List.dropLast_concat ..
    show gather resolveModuleFile parseBdl (fuel + 1) (r0 :: (rs ++ [m])) visited = _
    rw [gather]
    rw [h1, h2]

/-- Specification of a completed, successful `gather` run: the yielded
module records carry pairwise distinct paths, none of them already
visited; the set of yielded paths is exactly the set of paths reachable
from the queue while avoiding the visited set; and every record was
produced by one successful resolution and one successful parse. -/
theorem gather_ok_spec (fuel : Nat) :
    ∀ (queue visited : List String) (files : List ModuleFile),
      gather resolveModuleFile parseBdl fuel queue visited = some (.ok files) →
      ((files.map ModuleFile.modulePath).Nodup ∧
       (∀ mf ∈ files, mf.modulePath ∉ visited) ∧
       (∀ p, p ∈ files.map ModuleFile.modulePath ↔
          ReachAvoid (moduleImportsFn resolveModuleFile parseBdl) visited queue p) ∧
       (∀ mf ∈ files,
          resolveModuleFile mf.modulePath =
            .ok { fileUrl := mf.fileUrl, text := mf.text } ∧
          parseBdl mf.text = .ok mf.ast)) := by
  induction fuel with
  | zero =>
    intro queue visited files h
    cases queue with
    | nil =>
      have hfiles : files = [] := by
        have h' : some (Except.ok ([] : List ModuleFile)) =
            some (Except.ok files) := h
        injection h' with h''
        injection h'' with h'''
        exact h'''.symm
      subst hfiles
      refine ⟨List.nodup_nil, by simp, ?_, by simp⟩
      intro p
      simp only [List.map_nil, List.not_mem_nil, false_iff]
      exact reachAvoid_nil
    | cons q qs => exact absurd h (by simp [gather])
  | succ fuel ih =>
    intro queue visited files h
    rcases queue.eq_nil_or_concat' with rfl | ⟨rest, m, rfl⟩
    · have hfiles : files = [] := by
        have h' : some (Except.ok ([] : List ModuleFile)) =
            some (Except.ok files) := h
        injection h' with h''
        injection h'' with h'''
        exact h'''.symm
      subst hfiles
      refine ⟨List.nodup_nil, by simp, ?_, by simp⟩
      intro p
      simp only [List.map_nil, List.not_mem_nil, false_iff]
      exact reachAvoid_nil
    · rw [gather_concat] at h
      by_cases hv : m ∈ visited
      · rw [if_pos hv] at h
        obtain ⟨hnd, hvis, hiff, hres⟩ := ih rest visited files h
        refine ⟨hnd, hvis, ?_, hres⟩
        intro p
        rw [reachAvoid_concat_visited hv]
        exact hiff p
      · rw [if_neg hv] at h
        split at h
        next e hresolve => simp at h
        next r hresolve =>
          split at h
          next e hparse => simp at h
          next a hparse =>
            split at h
            next hg => simp at h
            next e hg => simp at h
            next files' hg =>
              simp only [Option.some.injEq, Except.ok.injEq] at h
              subst h
              obtain ⟨hnd, hvis, hiff, hres⟩ := ih _ _ _ hg
              have himp : moduleImportsFn resolveModuleFile parseBdl m =
                  getImportPaths r.text a := by
                simp [moduleImportsFn, hresolve, hparse]
              refine ⟨?_, ?_, ?_, ?_⟩
              · simp only [List.map_cons]
                refine List.Nodup.cons ?_ hnd
                intro hmem
                rcases List.mem_map.mp hmem with ⟨mf, hmf, hmp⟩
                exact hvis mf hmf (by rw [hmp]; exact List.mem_cons_self m visited)
              · intro mf hmf
                rcases List.mem_cons.mp hmf with rfl | hmf'
                · exact hv
                · intro hin
                  exact hvis mf hmf' (List.mem_cons_of_mem _ hin)
              · intro p
                rw [reachAvoid_concat_new hv, himp]
                simp only [List.map_cons, List.mem_cons]
                constructor
                · rintro (rfl | hmem)
                  · exact Or.inl rfl
                  · exact Or.inr ((hiff p).mp hmem)
                · rintro (rfl | hra)
                  · exact Or.inl rfl
                  · exact Or.inr ((hiff p).mpr hra)
              · intro mf hmf
                rcases List.mem_cons.mp hmf with rfl | hmf'
                · exact ⟨hresolve, hparse⟩
                · exact hres mf hmf'

end GatherSpec

/-!  Lemmas about the per-module build step and its folds. -/

theorem buildModule_modules (acc : BuildBdlIrResult) (mf : ModuleFile) :
    (buildModule acc mf).ir.modules =
      recordSet acc.ir.modules mf.modulePath
        { fileUrl := mf.fileUrl
          attributes := buildAttributes mf.text mf.ast.attributes
          defPaths := (buildDefsFold mf.text mf.modulePath
            (moduleTypeNameToPath mf.modulePath mf.text mf.ast)
            (defStatements mf.ast) [] acc.ir.defs).1
          imports := moduleImportList mf.text mf.ast } := rfl

theorem buildModule_defs (acc : BuildBdlIrResult) (mf : ModuleFile) :
    (buildModule acc mf).ir.defs =
      (buildDefsFold mf.text mf.modulePath
        (moduleTypeNameToPath mf.modulePath mf.text mf.ast)
        (defStatements mf.ast) [] acc.ir.defs).2 := rfl

theorem buildDefsFold_cons_none {text mp : String} {f : String → String}
    {s : ModuleLevelStatement} (rest : List ModuleLevelStatement)
    (dp : List String) (defs : List (String × Def))
    (hd : buildDef text s f = none) :
    buildDefsFold text mp f (s :: rest) dp defs =
      buildDefsFold text mp f rest dp defs := by
  simp [buildDefsFold, List.foldl_cons, hd]

theorem buildDefsFold_cons_some {text mp : String} {f : String → String}
    {s : ModuleLevelStatement} {d : Def} (rest : List ModuleLevelStatement)
    (dp : List String) (defs : List (String × Def))
    (hd : buildDef text s f = some d) :
    buildDefsFold text mp f (s :: rest) dp defs =
      buildDefsFold text mp f rest (dp ++ [mp ++ "." ++ d.name])
        (recordSet defs (mp ++ "." ++ d.name) d) := by
  simp [buildDefsFold, List.foldl_cons, hd]

theorem buildDefsFold_fst (text mp : String) (f : String → String) :
    ∀ (stmts : List ModuleLevelStatement) (dp : List String)
      (defs : List (String × Def)),
      (buildDefsFold text mp f stmts dp defs).1 =
        dp ++ stmts.filterMap (fun s =>
          (buildDef text s f).map (fun d => mp ++ "." ++ d.name)) := by
  intro stmts
  induction stmts with
  | nil =>
    intro dp defs
    simp [buildDefsFold]
  | cons s rest ih =>
    intro dp defs
    cases hd : buildDef text s f with
    | none =>
      rw [buildDefsFold_cons_none rest dp defs hd]
      simp [List.filterMap_cons, hd, ih]
    | some d =>
      rw [buildDefsFold_cons_some rest dp defs hd]
      simp [List.filterMap_cons, hd, ih]

theorem buildDefsFold_defs_isSome_mono (text mp : String) (f : String → String) :
    ∀ (stmts : List ModuleLevelStatement) (dp : List String)
      (defs : List (String × Def)) (key : String),
      (recordLookup defs key).isSome →
      (recordLookup (buildDefsFold text mp f stmts dp defs).2 key).isSome := by
  intro stmts
  induction stmts with
  | nil =>
    intro dp defs key h
    simpa [buildDefsFold] using h
  | cons s rest ih =>
    intro dp defs key h
    cases hd : buildDef text s f with
    | none =>
      rw [buildDefsFold_cons_none rest dp defs hd]
      exact ih dp defs key h
    | some d =>
      rw [buildDefsFold_cons_some rest dp defs hd]
      refine ih _ _ key ?_
      rw [recordLookup_recordSet]
      by_cases hk : key = mp ++ "." ++ d.name
      · rw [if_pos hk]
        rfl
      · rw [if_neg hk]
        exact h

theorem buildDefsFold_fst_isSome (text mp : String) (f : String → String) :
    ∀ (stmts : List ModuleLevelStatement) (dp : List String)
      (defs : List (String × Def)),
      (∀ p ∈ dp, (recordLookup defs p).isSome) →
      ∀ p ∈ (buildDefsFold text mp f stmts dp defs).1,
        (recordLookup (buildDefsFold text mp f stmts dp defs).2 p).isSome := by
  intro stmts
  induction stmts with
  | nil =>
    intro dp defs hdp p hp
    simp only [buildDefsFold, List.foldl_nil] at hp ⊢
    exact hdp p hp
  | cons s rest ih =>
    intro dp defs hdp p hp
    cases hd : buildDef text s f with
    | none =>
      rw [buildDefsFold_cons_none rest dp defs hd] at hp ⊢
      exact ih dp defs hdp p hp
    | some d =>
      rw [buildDefsFold_cons_some rest dp defs hd] at hp ⊢
      refine ih _ _ ?_ p hp
      intro q hq
      rw [recordLookup_recordSet]
      by_cases hk : q = mp ++ "." ++ d.name
      · rw [if_pos hk]
        rfl
      · rw [if_neg hk]
        rcases List.mem_append.mp hq with hq | hq
        · exact hdp q hq
        · rw [List.mem_singleton] at hq
          exact absurd hq hk

theorem foldl_buildModule_modules_keys :
    ∀ (files : List ModuleFile) (acc : BuildBdlIrResult),
      (∀ mf ∈ files, mf.modulePath ∉ recordKeys acc.ir.modules) →
      (files.map ModuleFile.modulePath).Nodup →
      recordKeys ((files.foldl buildModule acc).ir.modules) =
        recordKeys acc.ir.modules ++ files.map ModuleFile.modulePath := by
  intro files
  induction files with
  | nil =>
    intro acc _ _
    simp
  | cons mf rest ih =>
    intro acc hdis hnd
    simp only [List.foldl_cons, List.map_cons]
    have hfresh : mf.modulePath ∉ recordKeys acc.ir.modules :=
      hdis mf (List.mem_cons_self _ _)
    have hkeys : recordKeys ((buildModule acc mf).ir.modules) =
        recordKeys acc.ir.modules ++ [mf.modulePath] := by
      rw [buildModule_modules]
      exact recordKeys_recordSet_of_not_mem _ _ _ hfresh
    have hdis' : ∀ mf' ∈ rest,
        mf'.modulePath ∉ recordKeys ((buildModule acc mf).ir.modules) := by
      intro mf' hmf'
      rw [hkeys]
      simp only [List.mem_append, List.mem_singleton, not_or]
      refine ⟨hdis mf' (List.mem_cons_of_mem _ hmf'), ?_⟩
      intro heq
      exact (List.nodup_cons.mp hnd).1
        (heq ▸ List.mem_map_of_mem ModuleFile.modulePath hmf')
    rw [ih (buildModule acc mf) hdis' (List.nodup_cons.mp hnd).2, hkeys]
    simp

theorem foldl_buildModule_defPaths_isSome :
    ∀ (files : List ModuleFile) (acc : BuildBdlIrResult),
      (∀ mp m, recordLookup acc.ir.modules mp = some m →
        ∀ p ∈ m.defPaths, (recordLookup acc.ir.defs p).isSome) →
      ∀ mp m, recordLookup ((files.foldl buildModule acc).ir.modules) mp = some m →
        ∀ p ∈ m.defPaths,
          (recordLookup ((files.foldl buildModule acc).ir.defs) p).isSome := by
  intro files
  induction files with
  | nil =>
    intro acc h
    simpa using h
  | cons mf rest ih =>
    intro acc hinv
    simp only [List.foldl_cons]
    refine ih (buildModule acc mf) ?_
    intro mp m hm p hp
    rw [buildModule_modules, recordLookup_recordSet] at hm
    rw [buildModule_defs]
    by_cases hmp : mp = mf.modulePath
    · rw [if_pos hmp] at hm
      injection hm with hm
      subst hm
      exact buildDefsFold_fst_isSome _ _ _ _ _ _
        (fun q hq => absurd hq (List.not_mem_nil q)) p hp
    · rw [if_neg hmp] at hm
      exact buildDefsFold_defs_isSome_mono _ _ _ _ _ _ p
        (hinv mp m hm p hp)

/-!  Lemmas relating `importedNames` to the flat binding list. -/

theorem itemsFold_eq_applyBindings (modulePath : String) :
    ∀ (items : List ImportItem) (acc : List (String × String)),
      items.foldl (fun acc importItem =>
        let typePath := modulePath ++ "." ++ importItem.name
        match importItem.as with
        | some a => recordSet acc a typePath
        | none => recordSet acc importItem.name typePath) acc =
      applyBindings acc (items.map (itemBinding modulePath)) := by
  intro items
  induction items with
  | nil =>
    intro acc
    rfl
  | cons item rest ih =>
    intro acc
    rw [List.foldl_cons, List.map_cons]
    have hstep : applyBindings acc
        (itemBinding modulePath item :: rest.map (itemBinding modulePath)) =
        applyBindings (recordSet acc (itemBinding modulePath item).1
          (itemBinding modulePath item).2) (rest.map (itemBinding modulePath)) := rfl
    rw [hstep, ← ih]
    congr 1
    cases ha : item.as with
    | some a => simp [itemBinding, ha]
    | none => simp [itemBinding, ha]

theorem importedNames_eq_applyBindings :
    ∀ (imports : List Import) (acc : List (String × String)),
      imports.foldl (fun acc importStatement =>
        importStatement.items.foldl (fun acc importItem =>
          let typePath := importStatement.modulePath ++ "." ++ importItem.name
          match importItem.as with
          | some a => recordSet acc a typePath
          | none => recordSet acc importItem.name typePath) acc) acc =
      applyBindings acc (importBindings imports) := by
  intro imports
  induction imports with
  | nil =>
    intro acc
    rfl
  | cons importStatement rest ih =>
    intro acc
    rw [List.foldl_cons]
    have hbind : importBindings (importStatement :: rest) =
        importStatement.items.map (itemBinding importStatement.modulePath) ++
          importBindings rest := by
      simp [importBindings]
    rw [hbind]
    have happ : applyBindings acc
        (importStatement.items.map (itemBinding importStatement.modulePath) ++
          importBindings rest) =
        applyBindings (applyBindings acc
          (importStatement.items.map (itemBinding importStatement.modulePath)))
          (importBindings rest) := by
      simp [applyBindings, List.foldl_append]
    rw [happ, ← itemsFold_eq_applyBindings]
    exact ih _

theorem recordLookup_applyBindings :
    ∀ (bindings : List (String × String)) (acc : List (String × String))
      (k : String),
      recordLookup (applyBindings acc bindings) k =
        match lookupLast bindings k with
        | some v => some v
        | none => recordLookup acc k := by
  intro bindings
  induction bindings with
  | nil =>
    intro acc k
    rfl
  | cons b rest ih =>
    intro acc k
    obtain ⟨bk, bv⟩ := b
    have hstep : applyBindings acc ((bk, bv) :: rest) =
        applyBindings (recordSet acc bk bv) rest := rfl
    rw [hstep, ih]
    have hll : lookupLast ((bk, bv) :: rest) k =
        match lookupLast rest k with
        | some v => some v
        | none => if bk = k then some bv else none := by
      unfold lookupLast
      rw [List.reverse_cons, recordLookup_append]
      cases recordLookup rest.reverse k <;> simp [recordLookup]
    rw [hll]
    cases hrest : lookupLast rest k with
    | some v => rfl
    | none =>
      rw [recordLookup_recordSet]
      by_cases hk : k = bk
      · simp [hk]
      · simp [hk, Ne.symm hk]

/-!  Assorted list and string lemmas used by the claim theorems. -/

theorem defPath_inj {mp n₁ n₂ : String} (h : mp ++ "." ++ n₁ = mp ++ "." ++ n₂) :
    n₁ = n₂ := by
  apply String.ext
  have hd := congrArg String.data h
  simp only [String.data_append, List.append_assoc] at hd
  exact List.append_cancel_left (List.append_cancel_left hd)

theorem find?_first {α : Type} (p : α → Bool) :
    ∀ (l₁ : List α) (a : α) (l₂ : List α), p a → (∀ x ∈ l₁, ¬ p x) →
      List.find? p (l₁ ++ a :: l₂) = some a := by
  intro l₁
  induction l₁ with
  | nil =>
    intro a l₂ ha _
    rw [List.nil_append]
    exact List.find?_cons_of_pos _ ha
  | cons x l₁ ih =>
    intro a l₂ ha hneg
    rw [List.cons_append, List.find?_cons_of_neg]
    · exact ih a l₂ ha (fun y hy => hneg y (List.mem_cons_of_mem _ hy))
    · exact hneg x (List.mem_cons_self _ _)

theorem count_filterMap_eq_countP {α β : Type} [DecidableEq β]
    (f : α → Option β) (b : β) :
    ∀ l : List α,
      (l.filterMap f).count b = l.countP (fun a => decide (f a = some b)) := by
  intro l
  induction l with
  | nil => rfl
  | cons a rest ih =>
    cases hf : f a with
    | none =>
      rw [List.filterMap_cons_none hf, List.countP_cons, ih]
      simp [hf]
    | some b' =>
      rw [List.filterMap_cons_some hf, List.count_cons, List.countP_cons, ih]
      by_cases hb : b' = b
      · simp [hf, hb]
      · simp [hf, hb, Ne.symm hb]

theorem buildDefsFold_lookup_preserved (text mp : String) (f : String → String) :
    ∀ (stmts : List ModuleLevelStatement) (dp : List String)
      (defs : List (String × Def)) (key : String),
      (∀ s ∈ stmts, ∀ d, buildDef text s f = some d →
        mp ++ "." ++ d.name ≠ key) →
      recordLookup (buildDefsFold text mp f stmts dp defs).2 key =
        recordLookup defs key := by
  intro stmts
  induction stmts with
  | nil =>
    intro dp defs key _
    rfl
  | cons s rest ih =>
    intro dp defs key hne
    cases hd : buildDef text s f with
    | none =>
      rw [buildDefsFold_cons_none rest dp defs hd]
      exact ih dp defs key (fun s' hs' => hne s' (List.mem_cons_of_mem _ hs'))
    | some d =>
      rw [buildDefsFold_cons_some rest dp defs hd]
      rw [ih _ _ key (fun s' hs' => hne s' (List.mem_cons_of_mem _ hs'))]
      rw [recordLookup_recordSet]
      rw [if_neg]
      intro hk
      exact hne s (List.mem_cons_self _ _) d hd hk.symm

theorem buildDefsFold_keys_nodup (text mp : String) (f : String → String) :
    ∀ (stmts : List ModuleLevelStatement) (dp : List String)
      (defs : List (String × Def)),
      (recordKeys defs).Nodup →
      (recordKeys (buildDefsFold text mp f stmts dp defs).2).Nodup := by
  intro stmts
  induction stmts with
  | nil =>
    intro dp defs h
    exact h
  | cons s rest ih =>
    intro dp defs h
    cases hd : buildDef text s f with
    | none =>
      rw [buildDefsFold_cons_none rest dp defs hd]
      exact ih dp defs h
    | some d =>
      rw [buildDefsFold_cons_some rest dp defs hd]
      exact ih _ _ (recordKeys_nodup_recordSet defs _ d h)

/-!  Claim theorems and their witnesses. -/

/-- C1: for every entry set and every module-resolution capability, a
completed successful build visits each reachable module path exactly once:
the yielded module records carry pairwise distinct paths (each path is
fetched and parsed once), the modules map has exactly those paths as keys,
and a path is a key exactly when it is reachable by zero or more import
hops from the entries, however many import edges lead to it and whether or
not the import graph has cycles. -/
theorem buildBdlIr_visits_each_reachable_once {ε : Type}
    (entryModulePaths : List String)
    (resolveModuleFile : String → Except ε ResolveModuleFileResult)
    (parseBdl : String → Except ε BdlAst) (fuel : Nat)
    (res : BuildBdlIrResult) (files : List ModuleFile)
    (hg : gather resolveModuleFile parseBdl fuel entryModulePaths [] =
      some (.ok files))
    (h : buildBdlIr entryModulePaths resolveModuleFile parseBdl fuel =
      some (.ok res)) :
    (files.map ModuleFile.modulePath).Nodup ∧
    recordKeys res.ir.modules = files.map ModuleFile.modulePath ∧
    (∀ p, p ∈ recordKeys res.ir.modules ↔
      Reachable (moduleImportsFn resolveModuleFile parseBdl) entryModulePaths p) := by
  obtain ⟨hnd, hvis, hiff, hok⟩ :=
    gather_ok_spec resolveModuleFile parseBdl fuel _ _ _ hg
  unfold buildBdlIr at h
  rw [hg] at h
  have h' : some (Except.ok (files.foldl buildModule
      { asts := [], ir := { modules := [], defs := [] } })) =
      some (Except.ok res) := h
  have hres : files.foldl buildModule
      { asts := [], ir := { modules := [], defs := [] } } = res := by
    injection h' with h''
    injection h'' with h'''
  subst hres
  have hkeys := foldl_buildModule_modules_keys files
    { asts := [], ir := { modules := [], defs := [] } }
    (fun mf _ => List.not_mem_nil _) hnd
  refine ⟨hnd, ?_, ?_⟩
  · rw [hkeys]
    rfl
  · intro p
    rw [hkeys]
    simp only [List.nil_append]
    exact hiff p

/-- C1 witness: building the single entry module a with a capability that
always succeeds and a parser that returns the empty tree gives a modules
map with distinct keys among which a appears. -/
theorem buildBdlIr_visits_each_reachable_once_witness :
    (recordKeys resA.ir.modules).Nodup ∧ "a" ∈ recordKeys resA.ir.modules := by
  obtain ⟨hnd, hkeys, hiff⟩ := buildBdlIr_visits_each_reachable_once
    ["a"] resolveSelfText parseEmptyAst 2 resA filesA rfl rfl
  refine ⟨?_, ?_⟩
  · rw [hkeys]
    exact hnd
  · exact (hiff "a").mpr
      (ReachAvoid.base (List.mem_singleton_self "a") (List.not_mem_nil "a"))

/-- C2: inside a module, a type name resolves to the module-qualified path
when it names a definition declared directly in the module (local names
take precedence over any imported binding), otherwise to the target of
the imported-name record when the name is one of its keys, otherwise to
the name unchanged. -/
theorem typeNameToPath_resolution_order (modulePath text : String)
    (a : BdlAst) (T : String) :
    (T ∈ localDefNames text a →
      moduleTypeNameToPath modulePath text a T = modulePath ++ "." ++ T) ∧
    (T ∉ localDefNames text a →
      ∀ target,
        recordLookup (importedNames (moduleImportList text a)) T = some target →
        moduleTypeNameToPath modulePath text a T = target) ∧
    (T ∉ localDefNames text a →
      recordLookup (importedNames (moduleImportList text a)) T = none →
      moduleTypeNameToPath modulePath text a T = T) := by
  unfold moduleTypeNameToPath typeNameToPath
  refine ⟨fun hloc => ?_, fun hloc target htgt => ?_, fun hloc hnone => ?_⟩
  · rw [if_pos hloc]
  · rw [if_neg hloc, htgt]
  · rw [if_neg hloc, hnone]

/-- C2 witness: in a module a that declares a struct S and also imports S
and T from module other, S resolves locally (precedence over the module's
own import), T resolves through the import record, and the unknown name U
passes through unchanged. -/
theorem typeNameToPath_resolution_order_witness :
    moduleTypeNameToPath "a" "" astLocalAndImport "S" = "a" ++ "." ++ "S" ∧
    moduleTypeNameToPath "a" "" astLocalAndImport "T" = "other" ++ "." ++ "T" ∧
    moduleTypeNameToPath "a" "" astLocalAndImport "U" = "U" :=
  ⟨(typeNameToPath_resolution_order "a" "" astLocalAndImport "S").1 (by decide),
   (typeNameToPath_resolution_order "a" "" astLocalAndImport "T").2.1 (by decide)
     ("other" ++ "." ++ "T") (by decide),
   (typeNameToPath_resolution_order "a" "" astLocalAndImport "U").2.2 (by decide)
     (by decide)⟩

/-- C3 counterexample: the claim says an import item `X as Y` from module b
binds both X and Y to the path of X in b; in the code the declared name X
receives no binding at all when an alias is present — only the alias Y is
bound. -/
theorem importedNames_alias_shadows_declared_name :
    ¬ recordLookup (importedNames importsAliasOnly) "X" =
        some ("b" ++ "." ++ "X") ∧
    recordLookup (importedNames importsAliasOnly) "X" = none ∧
    recordLookup (importedNames importsAliasOnly) "Y" =
      some ("b" ++ "." ++ "X") := by
  refine ⟨?_, rfl, rfl⟩
  intro h
  exact Option.noConfusion h

/-- C3 (amended): the imported-name record is built from one binding per
item, processed in declaration order with later entries overwriting
earlier ones: the alias when present, otherwise the declared name, mapped
to the imported module's path joined with the declared name.  Lookup in
the record therefore equals last-binding lookup in the flat, declaration-
ordered binding list. -/
theorem importedNames_binds_alias_or_name_last_wins
    (imports : List Import) (k : String) :
    recordLookup (importedNames imports) k =
      lookupLast (importBindings imports) k := by
  have h1 : importedNames imports = applyBindings [] (importBindings imports) :=
    importedNames_eq_applyBindings imports []
  rw [h1, recordLookup_applyBindings]
  cases lookupLast (importBindings imports) k with
  | none => rfl
  | some v => rfl

/-- C4: a socket body assigns channels by role label, not by declaration
order: each channel is built from the first item in declaration order
whose sender and receiver spans carry that channel's role labels; when no
item matches, that channel is left undefined; when several match, only the
first is used; no error is raised in any case (the builder is total). -/
theorem buildSocket_channels_by_role (text : String)
    (items : List SocketItemAst) (f : String → String) :
    ((∀ i ∈ items, ¬ isServerToClientItem text i) →
      (buildSocket text items f).serverToClient = none) ∧
    (∀ l₁ i l₂, items = l₁ ++ i :: l₂ → isServerToClientItem text i →
      (∀ j ∈ l₁, ¬ isServerToClientItem text j) →
      (buildSocket text items f).serverToClient =
        some (buildSocketItem text i f)) ∧
    ((∀ i ∈ items, ¬ isClientToServerItem text i) →
      (buildSocket text items f).clientToServer = none) ∧
    (∀ l₁ i l₂, items = l₁ ++ i :: l₂ → isClientToServerItem text i →
      (∀ j ∈ l₁, ¬ isClientToServerItem text j) →
      (buildSocket text items f).clientToServer =
        some (buildSocketItem text i f)) := by
  simp only [buildSocket]
  refine ⟨fun hnone => ?_, fun l₁ i l₂ heq hi hneg => ?_,
          fun hnone => ?_, fun l₁ i l₂ heq hi hneg => ?_⟩
  · rw [List.find?_eq_none.mpr hnone]
    rfl
  · rw [heq, find?_first _ l₁ i l₂ hi hneg]
    rfl
  · rw [List.find?_eq_none.mpr hnone]
    rfl
  · rw [heq, find?_first _ l₁ i l₂ hi hneg]
    rfl

/-- C4 witness: with the client-to-server item declared first and the
server-to-client item second, both channels are populated by role (the
second item becomes serverToClient); with only a server-to-client item the
other channel is undefined. -/
theorem buildSocket_channels_by_role_witness :
    (buildSocket "" [c2sItem, s2cItem] id).serverToClient =
      some (buildSocketItem "" s2cItem id) ∧
    (buildSocket "" [c2sItem, s2cItem] id).clientToServer =
      some (buildSocketItem "" c2sItem id) ∧
    (buildSocket "" [s2cItem] id).clientToServer = none :=
  ⟨(buildSocket_channels_by_role "" [c2sItem, s2cItem] id).2.1
     [c2sItem] s2cItem [] rfl (by decide) (by decide),
   (buildSocket_channels_by_role "" [c2sItem, s2cItem] id).2.2.2
     [] c2sItem [s2cItem] rfl (by decide) (by decide),
   (buildSocket_channels_by_role "" [s2cItem] id).2.2.1 (by decide)⟩

/-- C5: a type expression builds to exactly one of three shapes: Plain of
the resolved value-type name without a container modifier, Array of the
resolved value-type name for a modifier without a key type, and Dictionary
with independently resolved key-type and value-type names for a modifier
with a key type; in a module where int and string are unresolved
primitives, an int array gives Array int and a string-to-int mapping gives
Dictionary with value path int and key path string. -/
theorem buildType_three_shapes (text : String) (f : String → String)
    (v k : Span) :
    buildType text { valueType := v, container := none } f =
      .Plain (f (span text v)) ∧
    buildType text { valueType := v, container := some { keyType := none } } f =
      .Array (f (span text v)) ∧
    buildType text { valueType := v, container := some { keyType := some k } } f =
      .Dictionary (f (span text v)) (f (span text k)) ∧
    buildType text { valueType := "int", container := some { keyType := none } }
      (typeNameToPath "m" [] []) = .Array "int" ∧
    buildType text
      { valueType := "int", container := some { keyType := some "string" } }
      (typeNameToPath "m" [] []) = .Dictionary "int" "string" :=
  ⟨rfl, rfl, rfl, rfl, rfl⟩

/-- C6: the build entry point is all-or-nothing: when the resolution
capability or the parser fails at any module reachable from the entries,
no completed run of the build returns a success value. -/
theorem buildBdlIr_all_or_nothing {ε : Type} (entryModulePaths : List String)
    (resolveModuleFile : String → Except ε ResolveModuleFileResult)
    (parseBdl : String → Except ε BdlAst) (fuel : Nat) (p : String)
    (res : BuildBdlIrResult)
    (hreach : Reachable (moduleImportsFn resolveModuleFile parseBdl)
      entryModulePaths p)
    (hfail : resolveOrParseFails resolveModuleFile parseBdl p) :
    buildBdlIr entryModulePaths resolveModuleFile parseBdl fuel ≠
      some (.ok res) := by
  intro h
  unfold buildBdlIr at h
  cases hg : gather resolveModuleFile parseBdl fuel entryModulePaths [] with
  | none =>
    rw [hg] at h
    exact Option.noConfusion h
  | some r =>
    cases r with
    | error e =>
      rw [hg] at h
      have h' : some (Except.error e) =
          some (Except.ok res : Except ε BuildBdlIrResult) := h
      injection h' with h''
      exact Except.noConfusion h''
    | ok files =>
      obtain ⟨hnd, hvis, hiff, hok⟩ :=
        gather_ok_spec resolveModuleFile parseBdl fuel _ _ _ hg
      have hp : p ∈ files.map ModuleFile.modulePath := (hiff p).mpr hreach
      rcases List.mem_map.mp hp with ⟨mf, hmf, rfl⟩
      obtain ⟨hres, hparse⟩ := hok mf hmf
      rcases hfail with ⟨e, he⟩ | ⟨r, e, hr, he⟩
      · rw [hres] at he
        exact Except.noConfusion he
      · rw [hres] at hr
        injection hr with hr
        have htext : mf.text = r.text :=
          congrArg ResolveModuleFileResult.text hr
        rw [← htext, hparse] at he
        exact Except.noConfusion he

/-- C6 witness: with a capability failing on every path, building from the
entry a cannot return a success value. -/
theorem buildBdlIr_all_or_nothing_witness :
    buildBdlIr ["a"] resolveFailAll parseEmptyAst 5 ≠
      some (.ok emptyBuildResult) :=
  buildBdlIr_all_or_nothing ["a"] resolveFailAll parseEmptyAst 5 "a"
    emptyBuildResult
    (ReachAvoid.base (List.mem_singleton_self "a") (List.not_mem_nil "a"))
    (Or.inl ⟨"unresolvable", rfl⟩)

/-- C7: in the result of any completed successful build, every path listed
in any stored module's definition-path list is present as a key of the
global defs map. -/
theorem buildBdlIr_defPaths_have_defs {ε : Type} (entryModulePaths : List String)
    (resolveModuleFile : String → Except ε ResolveModuleFileResult)
    (parseBdl : String → Except ε BdlAst) (fuel : Nat) (res : BuildBdlIrResult)
    (mp : String) (m : Module) (p : String)
    (h : buildBdlIr entryModulePaths resolveModuleFile parseBdl fuel =
      some (.ok res))
    (hm : recordLookup res.ir.modules mp = some m)
    (hp : p ∈ m.defPaths) :
    (recordLookup res.ir.defs p).isSome := by
  unfold buildBdlIr at h
  cases hg : gather resolveModuleFile parseBdl fuel entryModulePaths [] with
  | none =>
    rw [hg] at h
    exact Option.noConfusion h
  | some r =>
    cases r with
    | error e =>
      rw [hg] at h
      have h' : some (Except.error e) =
          some (Except.ok res : Except ε BuildBdlIrResult) := h
      injection h' with h''
      exact Except.noConfusion h''
    | ok files =>
      rw [hg] at h
      have h' : some (Except.ok (files.foldl buildModule
          { asts := [], ir := { modules := [], defs := [] } })) =
          some (Except.ok res) := h
      have hres : files.foldl buildModule
          { asts := [], ir := { modules := [], defs := [] } } = res := by
        injection h' with h''
        injection h'' with h'''
      subst hres
      exact foldl_buildModule_defPaths_isSome files
        { asts := [], ir := { modules := [], defs := [] } }
        (fun mp' m' hm' => Option.noConfusion hm') mp m hm p hp

/-- C7 witness: the concrete build of the single module a declaring struct
S lists the path of S, and that path is a key of the defs map. -/
theorem buildBdlIr_defPaths_have_defs_witness :
    (recordLookup resStructS.ir.defs "a.S").isSome :=
  buildBdlIr_defPaths_have_defs ["a"] resolveSelfText parseStructS 2
    resStructS "a" moduleStructS "a.S" rfl rfl
    (List.mem_singleton_self "a.S")

/-- C8: when one module declares several definitions under the same name,
no error is raised (the per-module build step is a total function) and the
defs map entry for the shared fully-qualified path holds the definition
built from the last such statement in declaration order. -/
theorem defs_last_write_wins (acc : BuildBdlIrResult) (mf : ModuleFile)
    (l₁ l₂ : List ModuleLevelStatement) (s : ModuleLevelStatement) (d : Def)
    (hsplit : defStatements mf.ast = l₁ ++ s :: l₂)
    (hd : buildDef mf.text s
      (moduleTypeNameToPath mf.modulePath mf.text mf.ast) = some d)
    (hlast : ∀ s' ∈ l₂, ∀ d',
      buildDef mf.text s'
        (moduleTypeNameToPath mf.modulePath mf.text mf.ast) = some d' →
      d'.name ≠ d.name) :
    recordLookup ((buildModule acc mf).ir.defs)
      (mf.modulePath ++ "." ++ d.name) = some d := by
  rw [buildModule_defs, hsplit]
  have happ : ∀ (dp : List String) (defs : List (String × Def)),
      buildDefsFold mf.text mf.modulePath
        (moduleTypeNameToPath mf.modulePath mf.text mf.ast)
        (l₁ ++ s :: l₂) dp defs =
      buildDefsFold mf.text mf.modulePath
        (moduleTypeNameToPath mf.modulePath mf.text mf.ast) (s :: l₂)
        (buildDefsFold mf.text mf.modulePath
          (moduleTypeNameToPath mf.modulePath mf.text mf.ast) l₁ dp defs).1
        (buildDefsFold mf.text mf.modulePath
          (moduleTypeNameToPath mf.modulePath mf.text mf.ast) l₁ dp defs).2 := by
    intro dp defs
    unfold buildDefsFold
    rw [List.foldl_append]
  rw [happ, buildDefsFold_cons_some l₂ _ _ hd,
    buildDefsFold_lookup_preserved mf.text mf.modulePath _ l₂ _ _ _
      (fun s' hs' d' hd' heq => hlast s' hs' d' hd' (defPath_inj heq)),
    recordLookup_recordSet, if_pos rfl]

/-- C8 witness: a module declaring the name E first as an enum and then as
a struct stores, under the path of E, the struct definition built from the
later statement. -/
theorem defs_last_write_wins_witness :
    recordLookup ((buildModule emptyBuildResult mfDup).ir.defs)
      ("a" ++ "." ++ "E") = some defStructE :=
  defs_last_write_wins emptyBuildResult mfDup [dupStmtEnum] [] dupStmtStruct
    defStructE rfl rfl (fun s' hs' => absurd hs' (List.not_mem_nil s'))

/-- C9: the build entry point is deterministic: two runs from the same
entry paths, the same fuel, the same parser, and resolution capabilities
that return identical results on every path produce structurally identical
results, syntax-tree map and IR included. -/
theorem buildBdlIr_deterministic {ε : Type} (entryModulePaths : List String)
    (resolveA resolveB : String → Except ε ResolveModuleFileResult)
    (parseBdl : String → Except ε BdlAst) (fuel : Nat)
    (h : ∀ p, resolveA p = resolveB p) :
    buildBdlIr entryModulePaths resolveA parseBdl fuel =
      buildBdlIr entryModulePaths resolveB parseBdl fuel := by
  have heq : resolveA = resolveB := funext h
  rw [heq]

/-- C9 witness: two syntactically different but pointwise equal resolution
capabilities give identical build results. -/
theorem buildBdlIr_deterministic_witness :
    buildBdlIr ["a"] resolveSelfText parseEmptyAst 2 =
      buildBdlIr ["a"] resolveSelfTextV2 parseEmptyAst 2 :=
  buildBdlIr_deterministic ["a"] resolveSelfText resolveSelfTextV2
    parseEmptyAst 2 (fun _ => rfl)

/-- C10: when a module declares the same name several times, its stored
module record lists the shared fully-qualified path once per declaration
(duplicates are not collapsed), while the defs map holds at most one entry
for that path. -/
theorem defPaths_keep_duplicates (acc : BuildBdlIrResult) (mf : ModuleFile)
    (n : String) (m : Module)
    (hnd : (recordKeys acc.ir.defs).Nodup)
    (hm : recordLookup ((buildModule acc mf).ir.modules) mf.modulePath =
      some m) :
    m.defPaths.count (mf.modulePath ++ "." ++ n) =
      (defStatements mf.ast).countP (fun s =>
        decide ((buildDef mf.text s
          (moduleTypeNameToPath mf.modulePath mf.text mf.ast)).map Def.name =
          some n)) ∧
    List.count (mf.modulePath ++ "." ++ n)
      (recordKeys ((buildModule acc mf).ir.defs)) ≤ 1 := by
  constructor
  · rw [buildModule_modules, recordLookup_recordSet, if_pos rfl] at hm
    injection hm with hm
    subst hm
    dsimp only
    rw [buildDefsFold_fst, List.nil_append, count_filterMap_eq_countP]
    apply List.countP_congr
    intro s hs
    cases hdef : buildDef mf.text s
        (moduleTypeNameToPath mf.modulePath mf.text mf.ast) with
    | none => simp [hdef]
    | some d =>
      simp only [hdef, Option.map_some', decide_eq_decide, decide_eq_true_eq,
        Option.some.injEq]
      constructor
      · exact fun hpe => defPath_inj hpe
      · intro hne
        rw [hne]
  · rw [buildModule_defs]
    have hnodup := buildDefsFold_keys_nodup mf.text mf.modulePath
      (moduleTypeNameToPath mf.modulePath mf.text mf.ast)
      (defStatements mf.ast) [] acc.ir.defs hnd
    exact List.nodup_iff_count_le_one.mp hnodup _

/-- C10 witness: the module declaring E twice lists the path of E twice in
its definition-path list, while the defs map holds at most one entry for
that path. -/
theorem defPaths_keep_duplicates_witness :
    moduleDup.defPaths.count ("a" ++ "." ++ "E") = 2 ∧
    List.count ("a" ++ "." ++ "E")
      (recordKeys ((buildModule emptyBuildResult mfDup).ir.defs)) ≤ 1 := by
  obtain ⟨h1, h2⟩ := defPaths_keep_duplicates emptyBuildResult mfDup "E"
    moduleDup List.nodup_nil rfl
  exact ⟨h1.trans (by decide), h2⟩

end Bdl
